import Mathlib

/-!
Verification of the `mc_puppetmaster` console-line classifier and process
supervisor (the `puppet` crate: `src/puppet/src/parsing.rs` and
`src/puppet/src/puppet.rs`).

The classifier in `parsing.rs` is a fixed chain of compiled regular
expressions applied to a line after ANSI-escape stripping.  Each regex of the
source is translated here into a deterministic parsing function over
`List Char`.  Where a regex contains a bounded character-class repetition
followed by a character outside the class (for example the username pattern
`[\w\d]{3,16}` followed by a space, `>` or `)`), its backtracking collapses
into maximal munch plus a length check, which is how the functions below are
written; genuine backtracking (the `.+` placeholders of the death-message
templates and the `vehicle of` alternative) is implemented with longest-first
search, mirroring the regex engine's leftmost-first, greedy semantics.
Only ASCII word characters (`isAlphanum`, `_`) are modelled for `\w`.
-/

/-! ## Character classes of the patterns in `parsing.rs` -/

/-- `\w`/`[\w\d]` of the source's patterns (ASCII scope). -/
def isWordChar (c : Char) : Bool := c.isAlphanum || c = '_'

/-- `[\d:]` (the 8-character `HH:MM:SS` timestamp class). -/
def isTimeChar (c : Char) : Bool := c.isDigit || c = ':'

/-- `[\d:.]` (the alternative 12-character time class). -/
def isTime12Char (c : Char) : Bool := c.isDigit || c = ':' || c = '.'

/-- `[\w.]` (the optional bracketed logger-name tag class). -/
def isTagChar (c : Char) : Bool := isWordChar c || c = '.'

/-- `.` of the source's patterns: any character other than a newline
(the regexes are compiled without the `s` flag). -/
def isDotChar (c : Char) : Bool := c ≠ '\n'

/-! ## Basic parsing functions over `List Char` -/

/-- Match a literal character sequence, returning the remainder. -/
def lit : List Char → List Char → Option (List Char)
  | [], s => some s
  | _ :: _, [] => none
  | c :: cs, d :: ds => if d = c then lit cs ds else none

/-- Match a literal string, returning the remainder. -/
def litS (t : String) (s : List Char) : Option (List Char) := lit t.data s

/-- Exactly `n` characters of the class `p` (a `{n}` repetition). -/
def cnt (p : Char → Bool) : Nat → List Char → Option (List Char)
  | 0, s => some s
  | _ + 1, [] => none
  | n + 1, c :: cs => if p c then cnt p n cs else none

/-- The maximal run of characters of the class `p`, with the remainder. -/
def spanP (p : Char → Bool) : List Char → List Char × List Char
  | [] => ([], [])
  | c :: cs =>
    if p c then
      let r := spanP p cs
      (c :: r.1, r.2)
    else ([], c :: cs)

/-- Unanchored, leftmost search: try `f` at every suffix, leftmost first
(the search a regex without `^` performs). -/
def searchAt (f : List Char → Option α) : List Char → Option α
  | [] => f []
  | c :: cs =>
    match f (c :: cs) with
    | some v => some v
    | none => searchAt f cs

/-! ## The log line head shared by the rules

`MATCH_INFO_LOG` of the source is
`^\[(?:[\d\w]{9} [\d:.]{12}|[\d:]{8})\] \[Server thread/INFO\](?: \[[\w.]+/?\])?:`
(`MATCH_WARN_LOG` with `WARN`, `MATCH_INFO_LOG_CHAT` with the thread-name
alternation `(?:Server thread/INFO|Async Chat Thread - #\d+/INFO)`).
The two timestamp alternatives are mutually exclusive (the first requires the
ninth character to be a word character, the second requires it to be `]`), so
committed choice is faithful to the engine's backtracking. -/

/-- The timestamp alternation together with its closing `]`. -/
def timestampAlt (s : List Char) : Option (List Char) :=
  match cnt isWordChar 9 s with
  | some (' ' :: r) =>
    match cnt isTime12Char 12 r with
    | some (']' :: r2) => some r2
    | _ =>
      match cnt isTimeChar 8 s with
      | some (']' :: r3) => some r3
      | _ => none
  | _ =>
    match cnt isTimeChar 8 s with
    | some (']' :: r3) => some r3
    | _ => none

/-- The optional logger-name tag and the final `:` of the head:
`(?: \[[\w.]+/?\])?:`.  When the tag alternative fails the empty alternative
needs a `:` where the line has a space, so no backtracking survives. -/
def optTagColon (s : List Char) : Option (List Char) :=
  match s with
  | ' ' :: '[' :: rest =>
    let r := spanP isTagChar rest
    if r.1.isEmpty then none
    else
      match r.2 with
      | '/' :: ']' :: ':' :: r3 => some r3
      | ']' :: ':' :: r3 => some r3
      | _ => none
  | ':' :: r => some r
  | _ => none

/-- The whole bracketed head, parameterized by the thread/level tag parser:
`^\[TS\] \[THREAD\](?: \[tag\])?:`, returning the remainder after `:`. -/
def logHead (tp : List Char → Option (List Char)) (s : List Char) :
    Option (List Char) :=
  match s with
  | '[' :: s1 =>
    match timestampAlt s1 with
    | some (' ' :: '[' :: s3) =>
      match tp s3 with
      | some (']' :: s5) => optTagColon s5
      | _ => none
    | _ => none
  | _ => none

/-- `Server thread/INFO`. -/
def threadInfoT (s : List Char) : Option (List Char) :=
  litS "Server thread/INFO" s

/-- `Server thread/WARN`. -/
def threadWarnT (s : List Char) : Option (List Char) :=
  litS "Server thread/WARN" s

/-- `Async Chat Thread - #\d+/INFO`. -/
def threadAsyncT (s : List Char) : Option (List Char) :=
  match litS "Async Chat Thread - #" s with
  | some r =>
    let d := spanP Char.isDigit r
    if d.1.isEmpty then none else litS "/INFO" d.2
  | none => none

/-- `(?:Server thread/INFO|Async Chat Thread - #\d+/INFO)` (the two
alternatives start with different letters, so committed choice is exact). -/
def threadChatT (s : List Char) : Option (List Char) :=
  match threadInfoT s with
  | some r => some r
  | none => threadAsyncT s

/-- The head `MATCH_INFO_LOG` requires. -/
def infoLog : List Char → Option (List Char) := logHead threadInfoT

/-- The head `MATCH_WARN_LOG` requires. -/
def warnLog : List Char → Option (List Char) := logHead threadWarnT

/-- The head `MATCH_INFO_LOG_CHAT` requires. -/
def chatLog : List Char → Option (List Char) := logHead threadChatT

/-! ## Capture pieces -/

/-- `([\w\d]{3,16})`: the username pattern.  Every use in the source is
followed by a non-word character (space, `>` or `)`), so the bounded greedy
repetition matches exactly the maximal word-character run when that run's
length lies within the bounds, and fails otherwise. -/
def parseUser (s : List Char) : Option (List Char × List Char) :=
  let r := spanP isWordChar s
  if 3 ≤ r.1.length ∧ r.1.length ≤ 16 then some (r.1, r.2) else none

/-- `u32::from_str` on a digit run: the numeric value when it fits in 32
bits, failure (overflow) otherwise — `parse::<u32>().ok()` of the source. -/
def parseU32 (digits : List Char) : Option Nat :=
  let n := digits.foldl (fun a c => a * 10 + (c.toNat - 48)) 0
  if n < 4294967296 then some n else none

/-- `f64::from_str` on `\d+.\d+`, which always succeeds; the value is
abstracted to the exact rational (floating-point rounding is not modelled,
and no claim depends on the numeric value). -/
def parseSecs (d1 d2 : List Char) : Option ℚ :=
  some ((d1.foldl (fun a c => a * 10 + (c.toNat - 48)) 0 : ℚ) +
    (d2.foldl (fun a c => a * 10 + (c.toNat - 48)) 0 : ℚ) / 10 ^ d2.length)

/-! ## The death-message template table (`DEATH_MESSAGES`, verbatim) -/

/-- The embedded death-message template table of `parsing.rs`, in source
order, duplicates included. -/
def deathMessages : List String := [
  "{1} fell off a ladder",
  "{1} fell off some vines",
  "{1} fell off some weeping vines",
  "{1} fell off some twisting vines",
  "{1} fell off scaffolding",
  "{1} fell while climbing",
  "{1} fell from a high place",
  "{1} was doomed to fall",
  "{1} was doomed to fall by {2}",
  "{1} was doomed to fall by {2} using {item}",
  "{1} fell too far and was finished by {2}",
  "{1} fell too far and was finished by {2} using {item}",
  "{1} was struck by lightning",
  "{1} was struck by lightning whilst fighting {2}",
  "{1} went up in flames",
  "{1} walked into fire whilst fighting {2}",
  "{1} burned to death",
  "{1} was burnt to a crisp whilst fighting {2}",
  "{1} tried to swim in lava",
  "{1} tried to swim in lava to escape {2}",
  "{1} discovered the floor was lava",
  "{1} walked into danger zone due to {2}",
  "{1} suffocated in a wall",
  "{1} suffocated in a wall whilst fighting {2}",
  "{1} was squished too much",
  "{1} was squashed by {2}",
  "{1} drowned",
  "{1} drowned whilst trying to escape {2}",
  "{1} died from dehydration",
  "{1} died from dehydration whilst trying to escape {2}",
  "{1} starved to death",
  "{1} starved to death whilst fighting {2}",
  "{1} was pricked to death",
  "{1} walked into a cactus whilst trying to escape {2}",
  "{1} died",
  "{1} died because of {2}",
  "{1} blew up",
  "{1} was blown up by {2}",
  "{1} was blown up by {2} using {item}",
  "{1} was killed by magic",
  "{1} was killed by magic whilst trying to escape {2}",
  "{1} was killed by even more magic",
  "{1} withered away",
  "{1} withered away whilst fighting {2}",
  "{1} was shot by a skull from {2}",
  "{1} was squashed by a falling anvil",
  "{1} was squashed by a falling anvil whilst fighting {2}",
  "{1} was squashed by a falling block",
  "{1} was squashed by a falling block whilst fighting {2}",
  "{1} was impaled on a stalagmite",
  "{1} was impaled on a stalagmite whilst fighting {2}",
  "{1} was skewered by a falling stalactite",
  "{1} was skewered by a falling stalactite whilst fighting {2}",
  "{1} was slain by {2}",
  "{1} was slain by {2} using {item}",
  "{1} was slain by {2}",
  "{1} was slain by {2} using {item}",
  "{1} was shot by {2}",
  "{1} was shot by {2} using {item}",
  "{1} was fireballed by {2}",
  "{1} was fireballed by {2} using {item}",
  "{1} was pummeled by {2}",
  "{1} was pummeled by {2} using {item}",
  "{1} was killed by {2} using magic",
  "{1} was killed by {2} using {item}",
  "{1} was killed trying to hurt {2}",
  "{1} was killed by {item} trying to hurt {2}",
  "{1} was impaled by {2}",
  "{1} was impaled by {2} with {item}",
  "{1} hit the ground too hard",
  "{1} hit the ground too hard whilst trying to escape {2}",
  "{1} fell out of the world",
  "{1} didn't want to live in the same world as {2}",
  "{1} was roasted in dragon breath",
  "{1} was roasted in dragon breath by {2}",
  "{1} experienced kinetic energy",
  "{1} experienced kinetic energy whilst trying to escape {2}",
  "{1} went off with a bang",
  "{1} went off with a bang whilst fighting {2}",
  "{1} went off with a bang due to a firework fired from {item} by {2}",
  "{1} was killed by Intentional Game Design",
  "{1} was poked to death by a sweet berry bush",
  "{1} was poked to death by a sweet berry bush whilst trying to escape {2}",
  "{1} was stung to death",
  "{1} was stung to death by {2}",
  "{1} froze to death",
  "{1} was frozen to death by {2}"]

/-- One element of a compiled death-message template: a literal character,
the username placeholder `{1}` (compiled to `[\w\d]{3,16}` by
`match_death_messages`), or a free-form placeholder `{2}`/`{item}`
(compiled to `.+`). -/
inductive TAtom where
  | ch (c : Char)
  | user
  | anyPlus
deriving DecidableEq

/-- The compilation `match_death_messages` performs on one template:
`{1}` becomes the username pattern, `{2}` and `{item}` become `.+`, all
other characters stand for themselves. -/
def templAtoms : List Char → List TAtom
  | [] => []
  | '{' :: '1' :: '}' :: rest => .user :: templAtoms rest
  | '{' :: '2' :: '}' :: rest => .anyPlus :: templAtoms rest
  | '{' :: 'i' :: 't' :: 'e' :: 'm' :: '}' :: rest => .anyPlus :: templAtoms rest
  | c :: rest => .ch c :: templAtoms rest

/-- The compiled template table. -/
def deathAtoms : List (List TAtom) := deathMessages.map fun t => templAtoms t.data

/-- Greedy `.+` before the continuation `k`: consume at least one
non-newline character, preferring the longest extent (try consuming more
before handing the rest to `k`), exactly the regex engine's greedy
preference order. -/
def anyPlusRun (k : List Char → Option Nat) : List Char → Option Nat
  | [] => none
  | c :: cs =>
    if c = '\n' then none
    else
      match anyPlusRun k cs with
      | some n => some (n + 1)
      | none => (k cs).map (· + 1)

/-- Greedy, backtracking match of one template against a prefix of `s`,
returning the number of characters of the overall match.  `.anyPlus` (`.+`)
is the greedy `anyPlusRun`; `.user` is the committed maximal-munch username
(every `{1}` in the table is followed by a space). -/
def matchAtoms : List TAtom → List Char → Option Nat
  | [], _ => some 0
  | .ch c :: rest, s =>
    match s with
    | d :: ds => if d = c then (matchAtoms rest ds).map (· + 1) else none
    | [] => none
  | .user :: rest, s =>
    let r := spanP isWordChar s
    if 3 ≤ r.1.length ∧ r.1.length ≤ 16 then
      (matchAtoms rest r.2).map (· + r.1.length)
    else none
  | .anyPlus :: rest, s => anyPlusRun (matchAtoms rest) s

/-- The `(?:t1|t2|...)` alternation over the compiled templates: alternatives
are tried in table order, the first that matches wins (leftmost-first). -/
def altFirst : List (List TAtom) → List Char → Option Nat
  | [], _ => none
  | a :: as, s =>
    match matchAtoms a s with
    | some n => some n
    | none => altFirst as s

/-! ## The moved-wrongly pattern

`RX_PLAYER_MOVED_WRONGLY` is built by
`regex!(r"{} (?:({u})|.+ \(vehicle of ({u})\)) moved (?:too quickly|wrongly)!.*", u = MATCH_USERNAME)`.
The positional `{}` of the format string is filled by the *named* argument
`u` (Rust format arguments are shared between the positional and the named
namespace), so the compiled pattern is
`[\w\d]{3,16} (?:([\w\d]{3,16})|.+ \(vehicle of ([\w\d]{3,16})\)) moved (?:too quickly|wrongly)!.*`
— it carries no log-head and no `^` anchor, and is searched anywhere in the
line. -/

/-- ` moved (?:too quickly|wrongly)!` (the trailing `.*` always matches and
binds nothing). -/
def movedTail (s : List Char) : Option Unit :=
  match litS " moved " s with
  | some r =>
    match litS "too quickly!" r with
    | some _ => some ()
    | none => (litS "wrongly!" r).map fun _ => ()
  | none => none

/-- After the part `.+` has ended: ` \(vehicle of ([\w\d]{3,16})\)` and the
tail, returning the second capture group. -/
def vehAfter (s : List Char) : Option (List Char) :=
  match litS " (vehicle of " s with
  | some r =>
    match parseUser r with
    | some (u, ')' :: r2) => (movedTail r2).map fun _ => u
    | _ => none
  | none => none

/-- `.+ \(vehicle of ([\w\d]{3,16})\)` and the tail: the greedy `.+` prefers
the longest extent, so longer splits are tried first. -/
def movedVehicle : List Char → Option (List Char)
  | [] => none
  | c :: cs =>
    if c = '\n' then none
    else
      match movedVehicle cs with
      | some u => some u
      | none => vehAfter cs

/-- One anchored attempt of the moved-wrongly pattern, returning the two
capture groups as the regex `Captures` would: exactly one of the two is
present, depending on the alternative that matched. -/
def movedAt (s : List Char) : Option (Option (List Char) × Option (List Char)) :=
  match parseUser s with
  | some (_, ' ' :: r) =>
    match parseUser r with
    | some (u, r2) =>
      match movedTail r2 with
      | some _ => some (some u, none)
      | none => (movedVehicle r).map fun u2 => (none, some u2)
    | none => (movedVehicle r).map fun u2 => (none, some u2)
  | _ => none

/-- The unanchored search `RX_PLAYER_MOVED_WRONGLY.captures(line)`,
restricted to the two capture groups. -/
def capturesMovedW (s : List Char) :
    Option (Option (List Char) × Option (List Char)) :=
  searchAt movedAt s

/-! ## The rule matchers of `parsing.rs` -/

/-- `match_done_loading`:
`RX_DONE_LOADING = {MATCH_INFO_LOG} Done \((\d+\.\d+)s\)! For help, type "help"`,
the capture parsed as a float (`.ok()?`). -/
def match_done_loading (l : List Char) : Option ℚ :=
  match infoLog l with
  | none => none
  | some r =>
    match litS " Done (" r with
    | none => none
    | some r1 =>
      let a := spanP Char.isDigit r1
      if a.1.isEmpty then none
      else
        match a.2 with
        | '.' :: r3 =>
          let b := spanP Char.isDigit r3
          if b.1.isEmpty then none
          else
            match litS "s)! For help, type \"help\"" b.2 with
            | some _ => parseSecs a.1 b.1
            | none => none
        | _ => none

/-- `match_starting_server`:
`RX_STARTING_SERVER = {MATCH_INFO_LOG} Starting minecraft server version (.+)`. -/
def match_starting_server (l : List Char) : Option String :=
  match infoLog l with
  | none => none
  | some r =>
    match litS " Starting minecraft server version " r with
    | none => none
    | some r1 =>
      let v := spanP isDotChar r1
      if v.1.isEmpty then none else some (String.mk v.1)

/-- `match_stopping_server`: `RX_STOPPING_SERVER = {MATCH_INFO_LOG} Stopping server`. -/
def match_stopping_server (l : List Char) : Bool :=
  match infoLog l with
  | none => false
  | some r => (litS " Stopping server" r).isSome

/-- `match_overloaded`:
`RX_OVERLOADED = {MATCH_WARN_LOG} Can't keep up! Is the server overloaded\? Running (\d+)ms or (\d+) ticks behind`.
As in the source, the *first* capture (the number before `ms`) is bound to
`ticks_behind` and the second (the number before ` ticks`) to `ms_behind`. -/
def match_overloaded (l : List Char) : Option (Nat × Nat) :=
  match warnLog l with
  | none => none
  | some r =>
    match litS " Can't keep up! Is the server overloaded? Running " r with
    | none => none
    | some r1 =>
      let a := spanP Char.isDigit r1
      if a.1.isEmpty then none
      else
        match litS "ms or " a.2 with
        | none => none
        | some r2 =>
          let b := spanP Char.isDigit r2
          if b.1.isEmpty then none
          else
            match litS " ticks behind" b.2 with
            | none => none
            | some _ =>
              match parseU32 a.1 with
              | none => none
              | some ticks_behind =>
                match parseU32 b.1 with
                | none => none
                | some ms_behind => some (ticks_behind, ms_behind)

/-- `match_player_died`:
`RX_PLAYER_DIED = {MATCH_INFO_LOG} ({match_death_messages()})`; the one
capture is the whole text the template alternation matched. -/
def match_player_died (l : List Char) : Option String :=
  match infoLog l with
  | some (' ' :: r) =>
    match altFirst deathAtoms r with
    | some n => some (String.mk (r.take n))
    | none => none
  | _ => none

/-- `match_chat_message`:
`RX_CHAT_MESSAGE = {MATCH_INFO_LOG_CHAT} <({MATCH_USERNAME})> (.+)`. -/
def match_chat_message (l : List Char) : Option (String × String) :=
  match chatLog l with
  | some (' ' :: '<' :: r) =>
    match parseUser r with
    | some (u, '>' :: ' ' :: r2) =>
      let m := spanP isDotChar r2
      if m.1.isEmpty then none else some (String.mk u, String.mk m.1)
    | _ => none
  | _ => none

/-- `match_player_joined`:
`RX_PLAYER_JOINED = {MATCH_INFO_LOG} ({MATCH_USERNAME}) joined the game`. -/
def match_player_joined (l : List Char) : Option String :=
  match infoLog l with
  | some (' ' :: r) =>
    match parseUser r with
    | some (u, r2) =>
      match litS " joined the game" r2 with
      | some _ => some (String.mk u)
      | none => none
    | none => none
  | _ => none

/-- `match_player_left`:
`RX_PLAYER_LEFT = {MATCH_INFO_LOG} ({MATCH_USERNAME}) left the game`. -/
def match_player_left (l : List Char) : Option String :=
  match infoLog l with
  | some (' ' :: r) =>
    match parseUser r with
    | some (u, r2) =>
      match litS " left the game" r2 with
      | some _ => some (String.mk u)
      | none => none
    | none => none
  | _ => none

/-! ## `strip_ansi_escapes` (§4.2 LineSanitizer)

Modelled from the spec: `strip_ansi_escapes` in `parsing.rs` feeds the
line's input units through the external `vte` crate's ANSI parser state
machine (a dependency whose code is not part of this repository) with a
performer whose only effects are `print` (append the character verbatim)
and `execute` (append only the newline control, discard every other
control byte).  The state machine below follows the spec's description of
that sanitizer: printable characters in the ground state are appended,
of the control bytes only newline produces output, and escape-initiated
sequences (ESC, CSI, OSC) are consumed without output. -/

/-- The sanitizer's states: ground, after ESC, inside a CSI sequence,
inside an OSC sequence. -/
inductive VtState where
  | ground
  | escape
  | csi
  | osc
deriving DecidableEq

/-- One step of the sanitizer: next state and the emitted character, if
any. -/
def vtStep (st : VtState) (c : Char) : VtState × Option Char :=
  match st with
  | .ground =>
    if c = '\x1b' then (.escape, none)
    else if c = '\n' then (.ground, some '\n')
    else if c.toNat < 0x20 || c = '\x7f' then (.ground, none)
    else (.ground, some c)
  | .escape =>
    if c = '[' then (.csi, none)
    else if c = ']' then (.osc, none)
    else if c = '\x1b' then (.escape, none)
    else (.ground, none)
  | .csi =>
    if c = '\x1b' then (.escape, none)
    else if 0x40 ≤ c.toNat && c.toNat ≤ 0x7e then (.ground, none)
    else (.csi, none)
  | .osc =>
    if c = '\x07' then (.ground, none)
    else if c = '\x1b' then (.escape, none)
    else (.osc, none)

/-- Run the sanitizer from a state over the input, collecting the output. -/
def vtRun : VtState → List Char → List Char
  | _, [] => []
  | st, c :: cs =>
    match vtStep st c with
    | (st2, some d) => d :: vtRun st2 cs
    | (st2, none) => vtRun st2 cs

/-- `strip_ansi_escapes`. -/
def strip_ansi_escapes (s : String) : String := String.mk (vtRun .ground s.data)

/-- A character the sanitizer can emit: a newline or a printable
character. -/
def isCleanChar (c : Char) : Bool :=
  c = '\n' || (0x20 ≤ c.toNat && c ≠ '\x7f')

/-! ## `ConsoleLine` and `ConsoleLine::parse_from` -/

/-- The event sum type of `parsing.rs` (`time` is the parsed seconds value,
abstracted to an exact rational; the two `Overloaded` fields are the `u32`
values in the source's field order). -/
inductive ConsoleLine where
  | DoneLoading (time : ℚ)
  | StartingServer (version : String)
  | StoppingServer
  | Overloaded (ticks_behind : Nat) (ms_behind : Nat)
  | PlayerMovedWrongly (username : String)
  | PlayerDied (death_message : String)
  | ChatMessage (username : String) (message : String)
  | PlayerJoined (username : String)
  | PlayerLeft (username : String)
deriving DecidableEq

/-- `ConsoleLine::parse_from`: sanitize, then try the rules in the fixed
source order, first match wins.  The one capture-group unwrap whose safety
is not structural — `Option::or(captures.get(1), captures.get(2)).unwrap()`
in `match_player_moved_wrongly` — is resolved here by matching on the
disjunction; `parse_fromPanic` below models that unwrap as a potential
panic, and the two functions are proved to agree. -/
def parse_from (line : String) : Option ConsoleLine :=
  let l := (strip_ansi_escapes line).data
  match match_done_loading l with
  | some time => some (.DoneLoading time)
  | none =>
  match match_starting_server l with
  | some version => some (.StartingServer version)
  | none =>
  if match_stopping_server l then some .StoppingServer
  else
  match match_overloaded l with
  | some (ticks_behind, ms_behind) => some (.Overloaded ticks_behind ms_behind)
  | none =>
  match capturesMovedW l with
  | some (g1, g2) =>
    match g1.or g2 with
    | some u => some (.PlayerMovedWrongly (String.mk u))
    | none => none
  | none =>
  match match_player_died l with
  | some death_message => some (.PlayerDied death_message)
  | none =>
  match match_chat_message l with
  | some (username, message) => some (.ChatMessage username message)
  | none =>
  match match_player_joined l with
  | some username => some (.PlayerJoined username)
  | none =>
  match match_player_left l with
  | some username => some (.PlayerLeft username)
  | none => none

/-- `ConsoleLine::parse_from` with the `match_player_moved_wrongly` unwrap
modelled faithfully: when the pattern matches but both capture groups are
absent, the source's `.unwrap()` would panic, returned here as
`Except.error ()`. -/
def parse_fromPanic (line : String) : Except Unit (Option ConsoleLine) :=
  let l := (strip_ansi_escapes line).data
  match match_done_loading l with
  | some time => .ok (some (.DoneLoading time))
  | none =>
  match match_starting_server l with
  | some version => .ok (some (.StartingServer version))
  | none =>
  if match_stopping_server l then .ok (some .StoppingServer)
  else
  match match_overloaded l with
  | some (ticks_behind, ms_behind) => .ok (some (.Overloaded ticks_behind ms_behind))
  | none =>
  match capturesMovedW l with
  | some (g1, g2) =>
    match g1.or g2 with
    | some u => .ok (some (.PlayerMovedWrongly (String.mk u)))
    | none => .error ()
  | none =>
  match match_player_died l with
  | some death_message => .ok (some (.PlayerDied death_message))
  | none =>
  match match_chat_message l with
  | some (username, message) => .ok (some (.ChatMessage username message))
  | none =>
  match match_player_joined l with
  | some username => .ok (some (.PlayerJoined username))
  | none =>
  match match_player_left l with
  | some username => .ok (some (.PlayerLeft username))
  | none => .ok none

/-- The classification rules as an ordered table, each rule one function
from the sanitized line to an optional event, in the priority order of
`parse_from`. -/
def ruleTable : List (List Char → Option ConsoleLine) := [
  fun l => (match_done_loading l).map ConsoleLine.DoneLoading,
  fun l => (match_starting_server l).map ConsoleLine.StartingServer,
  fun l => if match_stopping_server l then some .StoppingServer else none,
  fun l => (match_overloaded l).map fun p => .Overloaded p.1 p.2,
  fun l => (capturesMovedW l).bind fun p =>
    (p.1.or p.2).map fun u => .PlayerMovedWrongly (String.mk u),
  fun l => (match_player_died l).map ConsoleLine.PlayerDied,
  fun l => (match_chat_message l).map fun p => .ChatMessage p.1 p.2,
  fun l => (match_player_joined l).map ConsoleLine.PlayerJoined,
  fun l => (match_player_left l).map ConsoleLine.PlayerLeft]

/-- First-match-wins evaluation of an ordered rule table. -/
def firstMatch : List (List Char → Option ConsoleLine) → List Char →
    Option ConsoleLine
  | [], _ => none
  | f :: fs, l =>
    match f l with
    | some e => some e
    | none => firstMatch fs l

/-! ## `puppet.rs`: whitespace trimming (`str::trim`, `str::trim_end`) -/

/-- Rust `char::is_whitespace`: the Unicode `White_Space` property. -/
def isRustWhitespace (c : Char) : Bool :=
  let n := c.toNat
  (9 ≤ n && n ≤ 13) || n = 32 || n = 0x85 || n = 0xa0 || n = 0x1680 ||
  (0x2000 ≤ n && n ≤ 0x200a) || n = 0x2028 || n = 0x2029 || n = 0x202f ||
  n = 0x205f || n = 0x3000

/-- Drop the maximal trailing run of whitespace characters. -/
def dropTrailingWs (l : List Char) : List Char :=
  (l.reverse.dropWhile isRustWhitespace).reverse

/-- Rust `str::trim_end`. -/
def rustTrimEnd (s : String) : String := String.mk (dropTrailingWs s.data)

/-- Rust `str::trim`. -/
def rustTrim (s : String) : String :=
  String.mk (dropTrailingWs (s.data.dropWhile isRustWhitespace))

/-! ## `puppet.rs`: the mirror loops

The two loops of `Puppet::start` are modelled over an explicit list of
I/O events.  A read yields a line, end-of-stream (`Ok(0)`), or an error of
one of the kinds the code distinguishes; each line carries the outcome of
the write that follows it (`none` = success). -/

/-- The error kinds `start_dispatching_stdin`/`start_dispatching_stdout`
distinguish. -/
inductive IoKind where
  | interrupted
  | brokenPipe
  | other
deriving DecidableEq

/-- One iteration's events in the output-mirror loop: a line read from the
child's stdout paired with the outcome of the `write_all` to the host's
stdout, end-of-stream, or a read error. -/
inductive OutEvt where
  | readLine (s : String) (w : Option IoKind)
  | readEof
  | readErr (k : IoKind)

/-- One iteration's events in the input-mirror loop: a line read from the
host's stdin paired with the outcome of the `write_all` to the child's
stdin, end-of-stream, or a read error. -/
inductive InEvt where
  | readLine (s : String) (w : Option IoKind)
  | readEof
  | readErr (k : IoKind)

/-- `start_dispatching_stdout`: per iteration, read a line (end-of-stream
breaks with `Ok`, an interrupted read retries, a broken-pipe read breaks
with `Ok`, any other read error returns `Err`); then `write_all` the bytes
to the host's stdout with `?` — *any* write error, broken pipe included, is
returned as `Err`; then invoke the event sink with `buf.trim_end()`.
Returns the list of sink invocations and the fatal error, if one occurred. -/
def outputLoop : List OutEvt → List String × Option IoKind
  | [] => ([], none)
  | .readEof :: _ => ([], none)
  | .readErr k :: rest =>
    match k with
    | .interrupted => outputLoop rest
    | .brokenPipe => ([], none)
    | .other => ([], some .other)
  | .readLine s w :: rest =>
    match w with
    | some k => ([], some k)
    | none =>
      let r := outputLoop rest
      (rustTrimEnd s :: r.1, r.2)

/-- `start_dispatching_stdin`: per iteration, read a line (end-of-stream
breaks with `Ok`, an interrupted read retries, any other read error returns
`Err`); then `write_all` to the child's stdin, where a broken-pipe error
breaks with `Ok` and any other error returns `Err`. -/
def inputLoop : List InEvt → Option IoKind
  | [] => none
  | .readEof :: _ => none
  | .readErr k :: rest =>
    match k with
    | .interrupted => inputLoop rest
    | .brokenPipe => some .brokenPipe
    | .other => some .other
  | .readLine _ w :: rest =>
    match w with
    | none => inputLoop rest
    | some .brokenPipe => none
    | some .interrupted => some .interrupted
    | some .other => some .other

/-- The lines the output loop read and wrote before stopping (those whose
iteration reached the sink). -/
def deliveredLines : List OutEvt → List String
  | [] => []
  | .readEof :: _ => []
  | .readErr k :: rest =>
    match k with
    | .interrupted => deliveredLines rest
    | _ => []
  | .readLine s w :: rest =>
    match w with
    | some _ => []
    | none => s :: deliveredLines rest

/-- An output-loop event the code treats as benign: a successful
read-and-write, end-of-stream, an interrupted read or a broken-pipe read. -/
def benignOut : OutEvt → Bool
  | .readLine _ w => w = none
  | .readEof => true
  | .readErr k => k = .interrupted || k = .brokenPipe

/-- An input-loop event the code treats as benign: a read line whose write
succeeded or failed with a broken pipe, end-of-stream, or an interrupted
read. -/
def benignIn : InEvt → Bool
  | .readLine _ w => w = none || w = some .brokenPipe
  | .readEof => true
  | .readErr k => k = .interrupted

/-! ## `puppet.rs`: the child-stdin lock and `Puppet::command`

`Puppet::command` trims the text, then — holding the `child_stdin` mutex —
performs `write_all(trimmed)`, `write_u8(b'\n')`, `flush`.  The
input-mirror loop performs `write_all(line)` under the same mutex.  The
small-step relation below lets any pending writer acquire the free lock,
execute its primitive writes one at a time, and release; because every
primitive write requires the lock, bytes of two writers can never
interleave. -/

/-- A primitive operation on the child's stdin handle. -/
inductive WriteOp where
  | writeAll (bs : List Char)
  | writeU8 (c : Char)
  | flush
deriving DecidableEq

/-- The bytes a primitive operation appends to the child's stdin stream. -/
def opBytes : WriteOp → List Char
  | .writeAll bs => bs
  | .writeU8 c => [c]
  | .flush => []

/-- The bytes a whole critical section appends. -/
def opsBytes (ops : List WriteOp) : List Char := (ops.map opBytes).flatten

/-- The critical section of `Puppet::command(text)`. -/
def commandOps (text : String) : List WriteOp :=
  [.writeAll (rustTrim text).data, .writeU8 '\n', .flush]

/-- The critical section of one input-mirror iteration (the line includes
its terminator, as `read_line` leaves it). -/
def mirrorOps (line : String) : List WriteOp := [.writeAll line.data]

/-- A state of the child-stdin channel: the writers waiting for the lock
(each a whole critical section), the lock holder's progress (operations
already executed, operations remaining), and the bytes written so far. -/
structure StdinCfg where
  waiting : List (List WriteOp)
  running : Option (List WriteOp × List WriteOp)
  stream : List Char
deriving DecidableEq

/-- The interleaving semantics of the stdin mutex: a waiting writer may
acquire the free lock; only the lock holder may execute its next primitive
write; the holder releases after its last operation. -/
inductive StdinStep : StdinCfg → StdinCfg → Prop where
  | acquire (pre post : List (List WriteOp)) (s : List WriteOp) (st : List Char) :
      StdinStep ⟨pre ++ s :: post, none, st⟩ ⟨pre ++ post, some ([], s), st⟩
  | exec (w : List (List WriteOp)) (d : List WriteOp) (op : WriteOp)
      (r : List WriteOp) (st : List Char) :
      StdinStep ⟨w, some (d, op :: r), st⟩
        ⟨w, some (d ++ [op], r), st ++ opBytes op⟩
  | release (w : List (List WriteOp)) (d : List WriteOp) (st : List Char) :
      StdinStep ⟨w, some (d, []), st⟩ ⟨w, none, st⟩

/-- A PlayerJoined-shaped line with the given name token (the shape of
scenario 2 of the spec, §8). -/
def joinedLine (name : String) : String :=
  "[09:58:23] [Server thread/INFO]: " ++ name ++ " joined the game"

/-! # Theorems -/

/-! ## Sanitizer lemmas -/

/-- Whatever `vtStep` emits is a newline or a printable character. -/
theorem vtStep_emits_clean (st : VtState) (c : Char) (st2 : VtState) (d : Char)
    (h : vtStep st c = (st2, some d)) : isCleanChar d = true := by
  cases st <;> simp only [vtStep] at h <;> split_ifs at h with h1 h2 h3 <;>
    simp only [Prod.mk.injEq, reduceCtorEq, and_false] at h
  · rcases h with ⟨-, h⟩
    simp only [Option.some.injEq] at h
    subst h
    decide
  · rcases h with ⟨-, h⟩
    simp only [Option.some.injEq] at h
    subst h
    simp only [Bool.or_eq_true, decide_eq_true_eq] at h3
    push_neg at h3
    simp only [isCleanChar, Bool.or_eq_true, Bool.and_eq_true, decide_eq_true_eq]
    right
    refine ⟨by omega, ?_⟩
    simpa using h3.2

/-- Every character of the sanitizer's output is clean. -/
theorem vtRun_clean (l : List Char) : ∀ st, ∀ c ∈ vtRun st l, isCleanChar c = true := by
  induction l with
  | nil => intro st c hc; simp [vtRun] at hc
  | cons a as ih =>
    intro st c hc
    unfold vtRun at hc
    rcases h : vtStep st a with ⟨st2, od⟩
    rw [h] at hc
    cases od with
    | none => exact ih st2 c hc
    | some d =>
      rcases List.mem_cons.mp hc with h1 | h1
      · exact h1 ▸ vtStep_emits_clean st a st2 d h
      · exact ih st2 c h1

/-- On clean input the sanitizer is the identity. -/
theorem vtRun_clean_id (l : List Char) (h : ∀ c ∈ l, isCleanChar c = true) :
    vtRun .ground l = l := by
  induction l with
  | nil => rfl
  | cons a as ih =>
    have ha : isCleanChar a = true := h a (List.mem_cons_self a as)
    have step : vtStep .ground a = (.ground, some a) := by
      simp only [isCleanChar, Bool.or_eq_true, Bool.and_eq_true, decide_eq_true_eq,
        bne_iff_ne] at ha
      rcases ha with ha | ⟨ha1, ha2⟩
      · subst ha; rfl
      · unfold vtStep
        have e1 : ¬a = '\x1b' := by
          intro e; subst e; simp at ha1
        have e3 : ¬(a.toNat < 0x20 || a = '\x7f') = true := by
          simp only [Bool.or_eq_true, decide_eq_true_eq]
          push_neg
          exact ⟨by omega, ha2⟩
        by_cases e2 : a = '\n'
        · subst e2; simp
        · simp [e1, e2, e3]
    unfold vtRun
    rw [step]
    exact congrArg (a :: ·) (ih fun c hc => h c (List.mem_cons_of_mem a hc))

/-- C6 (amended): sanitization is idempotent, its output consists of
printable characters and newlines only, and on input that is already
clean — every character printable or a newline — it is the identity.
(The claim's further clause, that *every* printable character of the input
is preserved, fails for printable characters inside escape sequences; see
the counterexample.) -/
theorem sanitize_idempotent_clean (s : String) :
    strip_ansi_escapes (strip_ansi_escapes s) = strip_ansi_escapes s ∧
    (∀ c ∈ (strip_ansi_escapes s).data, isCleanChar c = true) ∧
    ((∀ c ∈ s.data, isCleanChar c = true) → strip_ansi_escapes s = s) := by
  refine ⟨?_, ?_, ?_⟩
  · show String.mk (vtRun .ground (vtRun .ground s.data)) = _
    rw [vtRun_clean_id _ (vtRun_clean s.data .ground)]
    rfl
  · exact vtRun_clean s.data .ground
  · intro h
    show String.mk (vtRun .ground s.data) = s
    rw [vtRun_clean_id s.data h]

/-- C6 (counterexample): on the escape sequence `ESC [ 0 m` sanitization
returns the empty string, although `[`, `0` and `m` are printable
characters of the input — printable characters inside an escape sequence
are consumed, not preserved. -/
theorem sanitize_drops_printable_in_escapes :
    strip_ansi_escapes "\x1b[0m" = "" ∧
    '[' ∈ ("\x1b[0m" : String).data ∧ isCleanChar '[' = true ∧
    '[' ∉ (strip_ansi_escapes "\x1b[0m").data := by
  refine ⟨rfl, by decide, by decide, by decide⟩

/-! ## Mirror-loop and command theorems -/

/-- C3 (counterexample): for the child-output line `"hi \n"` the event sink
receives `"hi"` — the trailing space is removed along with the terminator,
not delivered unchanged as the claim states. -/
theorem sink_not_terminator_only :
    (outputLoop [.readLine "hi \n" none, .readEof]).1 = ["hi"] ∧
    ("hi" : String) ≠ "hi " := by
  refine ⟨rfl, by decide⟩

/-- C3 (amended): the event sink is invoked once per delivered output line
with `trim_end` of the line — the line with its whole maximal trailing run
of whitespace removed (which includes the terminator, but also any spaces
or tabs before it); all earlier bytes are delivered unchanged. -/
theorem sink_receives_trim_end :
    (∀ evs : List OutEvt,
      (outputLoop evs).1 = (deliveredLines evs).map rustTrimEnd) ∧
    (∀ s : String, rustTrimEnd (s ++ "\n") = rustTrimEnd s) := by
  constructor
  · intro evs
    induction evs with
    | nil => rfl
    | cons e rest ih =>
      cases e with
      | readEof => rfl
      | readErr k => cases k <;> simp [outputLoop, deliveredLines, ih]
      | readLine s w =>
        cases w with
        | some k => rfl
        | none => simp [outputLoop, deliveredLines, ih]
  · intro s
    show String.mk (dropTrailingWs (s ++ "\n").data) = _
    have : (s ++ "\n").data = s.data ++ ['\n'] := String.data_append s "\n"
    rw [this]
    unfold dropTrailingWs
    simp only [List.reverse_append, List.reverse_cons, List.reverse_nil, List.nil_append,
      List.singleton_append, List.dropWhile]
    norm_num [isRustWhitespace]
    rfl

/-- C7 (counterexample): a broken-pipe failure of the `write_all` to the
host's standard output is propagated by the output loop as a fatal error,
while the input loop treats a broken-pipe write failure as normal
termination — the two loops do not have the same write-side semantics. -/
theorem stdout_broken_pipe_is_fatal :
    (outputLoop [.readLine "a\n" (some .brokenPipe)]).2 = some .brokenPipe ∧
    inputLoop [.readLine "a\n" (some .brokenPipe)] = none := ⟨rfl, rfl⟩

/-- C7 (amended): on the read side the output loop matches the input loop —
end-of-stream and a broken-pipe read terminate it normally and interrupted
reads are retried — and a run whose events are all benign ends without a
fatal error in either loop; but any error of the host-stdout write,
broken pipe included, is propagated by the output loop as a failure. -/
theorem loop_termination_semantics :
    (∀ evs : List OutEvt, (∀ e ∈ evs, benignOut e = true) →
      (outputLoop evs).2 = none) ∧
    (∀ evs : List InEvt, (∀ e ∈ evs, benignIn e = true) →
      inputLoop evs = none) ∧
    (∀ (s : String) (k : IoKind) (rest : List OutEvt),
      (outputLoop (.readLine s (some k) :: rest)).2 = some k) := by
  refine ⟨?_, ?_, fun s k rest => rfl⟩
  · intro evs h
    induction evs with
    | nil => rfl
    | cons e rest ih =>
      have he := h e (List.mem_cons_self e rest)
      have hr := fun x hx => h x (List.mem_cons_of_mem e hx)
      cases e with
      | readEof => rfl
      | readErr k =>
        cases k with
        | interrupted => simpa [outputLoop] using ih hr
        | brokenPipe => rfl
        | other => simp [benignOut] at he
      | readLine s w =>
        cases w with
        | some k => simp [benignOut] at he
        | none => simpa [outputLoop] using ih hr
  · intro evs h
    induction evs with
    | nil => rfl
    | cons e rest ih =>
      have he := h e (List.mem_cons_self e rest)
      have hr := fun x hx => h x (List.mem_cons_of_mem e hx)
      cases e with
      | readEof => rfl
      | readErr k =>
        cases k with
        | interrupted => simpa [inputLoop] using ih hr
        | brokenPipe => simp [benignIn] at he
        | other => simp [benignIn] at he
      | readLine s w =>
        cases w with
        | none => simpa [inputLoop] using ih hr
        | some k =>
          cases k with
          | brokenPipe => rfl
          | interrupted => simp [benignIn] at he
          | other => simp [benignIn] at he

/-- All-whitespace text trims to the empty string. -/
theorem rustTrim_all_ws (text : String)
    (h : ∀ c ∈ text.data, isRustWhitespace c = true) : rustTrim text = "" := by
  unfold rustTrim
  have : text.data.dropWhile isRustWhitespace = [] :=
    List.dropWhile_eq_nil_iff.mpr h
  rw [this]
  rfl

/-- C10: `command(text)` always performs the same three operations —
`write_all` of the trimmed text, `write_u8` of one `\n` byte, `flush` — so
its bytes are exactly the whitespace-trimmed text followed by a single
newline; for text consisting only of whitespace (the empty string included)
the trimmed text is empty and exactly one bare newline byte is still
written, with a flush, rather than the write being skipped. -/
theorem command_writes_trimmed_line (text : String) :
    commandOps text = [.writeAll (rustTrim text).data, .writeU8 '\n', .flush] ∧
    opsBytes (commandOps text) = (rustTrim text).data ++ ['\n'] ∧
    ((∀ c ∈ text.data, isRustWhitespace c = true) →
      opsBytes (commandOps text) = ['\n'] ∧ (rustTrim text).data = []) := by
  refine ⟨rfl, by simp [commandOps, opsBytes, opBytes], fun h => ?_⟩
  have e := rustTrim_all_ws text h
  constructor
  · simp [commandOps, opsBytes, opBytes, e]
  · rw [e]

/-! ## Child-stdin atomicity -/

/-- `opsBytes` distributes over concatenation of operation lists. -/
theorem opsBytes_append (a b : List WriteOp) :
    opsBytes (a ++ b) = opsBytes a ++ opsBytes b := by
  simp [opsBytes]

/-- The lock invariant: some list of completed critical sections `comp`,
together with the waiting ones and (when the lock is held) the holder's
reassembled script, is a permutation of the original scripts, and the
stream is exactly the completed sections' bytes followed by the holder's
executed part. -/
theorem stdin_step_inv (scripts : List (List WriteOp)) (c c' : StdinCfg)
    (hs : StdinStep c c')
    (h : ∃ comp : List (List WriteOp),
      match c.running with
      | none => (comp ++ c.waiting).Perm scripts ∧
          c.stream = (comp.map opsBytes).flatten
      | some (d, r) => (comp ++ (d ++ r) :: c.waiting).Perm scripts ∧
          c.stream = (comp.map opsBytes).flatten ++ opsBytes d) :
    ∃ comp : List (List WriteOp),
      match c'.running with
      | none => (comp ++ c'.waiting).Perm scripts ∧
          c'.stream = (comp.map opsBytes).flatten
      | some (d, r) => (comp ++ (d ++ r) :: c'.waiting).Perm scripts ∧
          c'.stream = (comp.map opsBytes).flatten ++ opsBytes d := by
  obtain ⟨comp, hc⟩ := h
  cases hs with
  | acquire pre post s st =>
    simp only at hc ⊢
    refine ⟨comp, ?_, ?_⟩
    · refine List.Perm.trans ?_ hc.1
      refine List.Perm.append_left comp ?_
      simpa using List.perm_middle.symm
    · simpa [opsBytes] using hc.2
  | exec w d op r st =>
    simp only at hc ⊢
    refine ⟨comp, ?_, ?_⟩
    · simpa [List.append_assoc] using hc.1
    · rw [hc.2, opsBytes_append, List.append_assoc]
      simp [opsBytes]
  | release w d st =>
    simp only at hc ⊢
    refine ⟨comp ++ [d], ?_, ?_⟩
    · simpa [List.append_assoc] using hc.1
    · rw [hc.2]
      simp [opsBytes]

/-- The invariant holds along every execution. -/
theorem stdin_reach_inv (scripts : List (List WriteOp)) (c : StdinCfg)
    (h : Relation.ReflTransGen StdinStep ⟨scripts, none, []⟩ c) :
    ∃ comp : List (List WriteOp),
      match c.running with
      | none => (comp ++ c.waiting).Perm scripts ∧
          c.stream = (comp.map opsBytes).flatten
      | some (d, r) => (comp ++ (d ++ r) :: c.waiting).Perm scripts ∧
          c.stream = (comp.map opsBytes).flatten ++ opsBytes d := by
  induction h with
  | refl => exact ⟨[], by simpa using List.Perm.refl scripts, rfl⟩
  | tail _ hs ih => exact stdin_step_inv scripts _ _ hs ih

/-- C9: starting from any collection of pending `command(text)` calls and
input-mirror iterations, every complete execution of the stdin-lock
semantics — every interleaving in which all writers have finished and the
lock is free — leaves the child's stdin holding the whole byte strings of
the individual writers concatenated in some serial order; each `command`
call contributes its trimmed text followed by one newline as one unbroken
line, with no interleaving of partial lines.  (The distinctness of the
texts is part of the claim's setup; the guarantee does not depend on it.) -/
theorem command_line_atomicity (texts mirrors : List String) (c : StdinCfg)
    (hdist : texts.Nodup)
    (h : Relation.ReflTransGen StdinStep
      ⟨texts.map commandOps ++ mirrors.map mirrorOps, none, []⟩ c)
    (hw : c.waiting = []) (hr : c.running = none) :
    ∃ order : List (List WriteOp),
      order.Perm (texts.map commandOps ++ mirrors.map mirrorOps) ∧
      c.stream = (order.map opsBytes).flatten ∧
      ∀ t ∈ texts, opsBytes (commandOps t) = (rustTrim t).data ++ ['\n'] := by
  have inv := stdin_reach_inv (texts.map commandOps ++ mirrors.map mirrorOps) c h
  rw [hr] at inv
  obtain ⟨comp, hperm, hstream⟩ := inv
  rw [hw] at hperm
  refine ⟨comp, by simpa using hperm, hstream, fun t _ => ?_⟩
  simp [commandOps, opsBytes, opBytes]

/-- C9 (witness): a complete interleaved execution of the two calls
`command("a")` and `command("b")` leaves `"a\nb\n"` on the child's stdin —
two whole lines in serial order. -/
theorem command_line_atomicity_witness :
    ∃ order : List (List WriteOp),
      order.Perm (["a", "b"].map commandOps ++ ([] : List String).map mirrorOps) ∧
      ("a\nb\n" : String).data = (order.map opsBytes).flatten ∧
      ∀ t ∈ ["a", "b"], opsBytes (commandOps t) = (rustTrim t).data ++ ['\n'] := by
  refine command_line_atomicity ["a", "b"] [] ⟨[], none, ("a\nb\n" : String).data⟩
    (by decide) ?_ rfl rfl
  refine Relation.ReflTransGen.head
    (StdinStep.acquire [] [commandOps "b"] (commandOps "a") []) ?_
  refine Relation.ReflTransGen.head (StdinStep.exec _ _ _ _ _) ?_
  refine Relation.ReflTransGen.head (StdinStep.exec _ _ _ _ _) ?_
  refine Relation.ReflTransGen.head (StdinStep.exec _ _ _ _ _) ?_
  refine Relation.ReflTransGen.head (StdinStep.release _ _ _) ?_
  refine Relation.ReflTransGen.head
    (StdinStep.acquire [] [] (commandOps "b") _) ?_
  refine Relation.ReflTransGen.head (StdinStep.exec _ _ _ _ _) ?_
  refine Relation.ReflTransGen.head (StdinStep.exec _ _ _ _ _) ?_
  refine Relation.ReflTransGen.head (StdinStep.exec _ _ _ _ _) ?_
  exact Relation.ReflTransGen.single (StdinStep.release _ _ _)

/-! ## Classifier evaluation theorems -/

/-- C1: on the spec's overload scenario line the classifier produces
`Overloaded` with `ticks_behind = 1234` and `ms_behind = 56`:
`match_overloaded` binds capture group 1 — the number before `ms` — to
`ticks_behind` and group 2 — the number before ` ticks` — to `ms_behind`,
the reverse of what the field names (and the spec) say. -/
theorem overloaded_fields_swapped :
    parse_from "[09:58:23] [Server thread/WARN]: Can't keep up! Is the server overloaded? Running 1234ms or 56 ticks behind"
      = some (.Overloaded 1234 56) ∧
    parse_from "[09:58:23] [Server thread/WARN]: Can't keep up! Is the server overloaded? Running 1234ms or 56 ticks behind"
      ≠ some (.Overloaded 56 1234) := by
  refine ⟨by decide, by decide⟩

/-- C2: the line `"abc def moved wrongly!"` begins with no recognized log
head — none of the three head patterns accepts it — yet classification
produces `PlayerMovedWrongly` with username `"def"`: the compiled
`RX_PLAYER_MOVED_WRONGLY` received the username pattern in place of the
log-head (the `{}` slot of its format string is filled by the named
argument `u`), so it is unanchored and head-less. -/
theorem moved_wrongly_without_log_head :
    parse_from "abc def moved wrongly!" = some (.PlayerMovedWrongly "def") ∧
    infoLog ("abc def moved wrongly!" : String).data = none ∧
    warnLog ("abc def moved wrongly!" : String).data = none ∧
    chatLog ("abc def moved wrongly!" : String).data = none := by
  refine ⟨by decide, by decide, by decide, by decide⟩

/-! ## Totality of classification -/

/-- A successful unanchored search means a successful anchored attempt at
some suffix. -/
theorem searchAt_some {α : Type} (f : List Char → Option α) (l : List Char) (v : α)
    (h : searchAt f l = some v) : ∃ t, f t = some v := by
  induction l with
  | nil => exact ⟨[], h⟩
  | cons c cs ih =>
    unfold searchAt at h
    split at h
    · exact ⟨c :: cs, by rw [‹f (c :: cs) = some _›]; exact h⟩
    · exact ih h

/-- An anchored moved-wrongly match always carries one of its two capture
groups: the first alternative binds group 1, the second binds group 2. -/
theorem movedAt_or (s : List Char) (p : Option (List Char) × Option (List Char))
    (h : movedAt s = some p) : (p.1.or p.2).isSome = true := by
  unfold movedAt at h
  split at h
  · split at h
    · split at h
      · simp only [Option.some.injEq] at h
        subst h
        rfl
      · rcases Option.map_eq_some'.mp h with ⟨u2, -, hu⟩
        subst hu
        rfl
    · rcases Option.map_eq_some'.mp h with ⟨u2, -, hu⟩
      subst hu
      rfl
  · exact absurd h (by simp)

/-- Whenever `RX_PLAYER_MOVED_WRONGLY` matches, `Option::or` of its two
capture groups is present — the `.unwrap()` in
`match_player_moved_wrongly` cannot panic. -/
theorem capturesMovedW_or (l : List Char) (p : Option (List Char) × Option (List Char))
    (h : capturesMovedW l = some p) : (p.1.or p.2).isSome = true := by
  obtain ⟨t, ht⟩ := searchAt_some _ _ _ h
  exact movedAt_or t p ht

/-- C5: classification is total and never panics: the panic-faithful
`parse_fromPanic` returns `Except.ok` of the pure function `parse_from` on
every input — every capture-group unwrap is reached only when the group is
present, and the result is that of a pure, deterministic function of the
line text. -/
theorem classification_total (line : String) :
    parse_fromPanic line = .ok (parse_from line) := by
  simp only [parse_fromPanic, parse_from]
  generalize (strip_ansi_escapes line).data = l
  cases h1 : match_done_loading l
  case some => rfl
  case none =>
  cases h2 : match_starting_server l
  case some => rfl
  case none =>
  cases h3 : match_stopping_server l
  case true => simp [h3]
  case false =>
  simp only [h3, Bool.false_eq_true, if_false]
  cases h4 : match_overloaded l
  case some p => obtain ⟨a, b⟩ := p; rfl
  case none =>
  cases h5 : capturesMovedW l
  case some p =>
    obtain ⟨g1, g2⟩ := p
    have hp := capturesMovedW_or l (g1, g2) h5
    cases h6 : g1.or g2
    case some => simp only [h6]
    case none => rw [h6] at hp; simp at hp
  case none =>
  cases h7 : match_player_died l
  case some => rfl
  case none =>
  cases h8 : match_chat_message l
  case some p => obtain ⟨a, b⟩ := p; rfl
  case none =>
  cases h9 : match_player_joined l
  case some => rfl
  case none =>
  cases h10 : match_player_left l
  case some => rfl
  case none => rfl

/-! ## Priority order -/

/-- `parse_from` is first-match-wins evaluation of the ordered rule table. -/
theorem parse_from_eq_firstMatch (line : String) :
    parse_from line = firstMatch ruleTable ((strip_ansi_escapes line).data) := by
  simp only [parse_from, ruleTable, firstMatch]
  generalize (strip_ansi_escapes line).data = l
  cases h1 : match_done_loading l
  case some => rfl
  case none =>
  simp only [h1, Option.map_none']
  cases h2 : match_starting_server l
  case some => rfl
  case none =>
  simp only [h2, Option.map_none']
  cases h3 : match_stopping_server l
  case true => simp [h3]
  case false =>
  simp only [h3, Bool.false_eq_true, if_false]
  cases h4 : match_overloaded l
  case some p => obtain ⟨a, b⟩ := p; rfl
  case none =>
  simp only [h4, Option.map_none']
  cases h5 : capturesMovedW l
  case some p =>
    obtain ⟨g1, g2⟩ := p
    simp only [h5, Option.bind_some]
    cases h6 : g1.or g2
    case some => simp [h6]
    case none =>
      have hp := capturesMovedW_or l (g1, g2) h5
      rw [h6] at hp
      simp at hp
  case none =>
  simp only [h5, Option.bind_none]
  cases h7 : match_player_died l
  case some => rfl
  case none =>
  simp only [h7, Option.map_none']
  cases h8 : match_chat_message l
  case some p => obtain ⟨a, b⟩ := p; rfl
  case none =>
  simp only [h8, Option.map_none']
  cases h9 : match_player_joined l
  case some => rfl
  case none =>
  simp only [h9, Option.map_none']
  cases h10 : match_player_left l
  case some => rfl
  case none => simp [h10]

/-- A log head accepted under a thread parser is accepted under any thread
parser that extends it. -/
theorem logHead_mono (tp1 tp2 : List Char → Option (List Char))
    (hm : ∀ s r, tp1 s = some r → tp2 s = some r) (s r : List Char)
    (h : logHead tp1 s = some r) : logHead tp2 s = some r := by
  unfold logHead at h ⊢
  split at h
  · split at h
    · split at h
      · rename_i htp
        rw [hm _ _ htp]
        exact h
      · exact absurd h (by simp)
    · exact absurd h (by simp)
  · exact absurd h (by simp)

/-- The chat thread alternation accepts everything `Server thread/INFO`
accepts (it is its first alternative). -/
theorem threadInfoT_to_chat (s r : List Char) (h : threadInfoT s = some r) :
    threadChatT s = some r := by
  unfold threadChatT
  rw [h]

/-- A line with the INFO head also has the chat head, with the same
remainder. -/
theorem infoLog_to_chatLog (l r : List Char) (h : infoLog l = some r) :
    chatLog l = some r :=
  logHead_mono threadInfoT threadChatT threadInfoT_to_chat l r h

/-- A successful alternation match comes from one of its alternatives. -/
theorem altFirst_mem (as : List (List TAtom)) (s : List Char) (n : Nat)
    (h : altFirst as s = some n) : ∃ a ∈ as, matchAtoms a s = some n := by
  induction as with
  | nil => simp [altFirst] at h
  | cons a as ih =>
    unfold altFirst at h
    split at h
    · rename_i m hm
      exact ⟨a, List.mem_cons_self a as, by rw [hm]; exact h⟩
    · obtain ⟨b, hb, hmb⟩ := ih h
      exact ⟨b, List.mem_cons_of_mem a hb, hmb⟩

/-- Every compiled death-message template begins with the username
placeholder (`{1}` starts every entry of `DEATH_MESSAGES`). -/
theorem deathAtoms_start_user : ∀ a ∈ deathAtoms, a.head? = some .user := by decide

/-- A template starting with the username placeholder only matches text
whose first character is a word character. -/
theorem matchAtoms_user_head (rest : List TAtom) (s : List Char) (n : Nat)
    (h : matchAtoms (.user :: rest) s = some n) :
    ∃ c t, s = c :: t ∧ isWordChar c = true := by
  unfold matchAtoms at h
  cases s with
  | nil => simp [spanP] at h
  | cons c t =>
    refine ⟨c, t, rfl, ?_⟩
    by_contra hw
    simp only [Bool.not_eq_true] at hw
    simp [spanP, hw] at h

/-- A PlayerDied match fixes the INFO head and a successful template
alternation on the remainder. -/
theorem died_shape (l : List Char) (d : String) (h : match_player_died l = some d) :
    ∃ r, infoLog l = some (' ' :: r) ∧ ∃ n, altFirst deathAtoms r = some n := by
  unfold match_player_died at h
  split at h
  · rename_i hinfo
    split at h
    · rename_i halt
      exact ⟨_, hinfo, _, halt⟩
    · exact absurd h (by simp)
  · exact absurd h (by simp)

/-- A ChatMessage match fixes the chat head with `<` right after the
following space. -/
theorem chat_shape (l : List Char) (p : String × String)
    (h : match_chat_message l = some p) :
    ∃ r, chatLog l = some (' ' :: '<' :: r) := by
  unfold match_chat_message at h
  split at h
  · rename_i hchat
    split at h
    · exact ⟨_, hchat⟩
    · exact absurd h (by simp)
  · exact absurd h (by simp)

/-- No line matches both the PlayerDied rule and the ChatMessage rule:
after the (shared) log head, PlayerDied requires a word character where
ChatMessage requires `<`. -/
theorem died_chat_exclusive (l : List Char) (d : String) (p : String × String)
    (hd : match_player_died l = some d) (hc : match_chat_message l = some p) :
    False := by
  obtain ⟨r, hinfo, n, halt⟩ := died_shape l d hd
  obtain ⟨r2, hchat⟩ := chat_shape l p hc
  have hchat2 : chatLog l = some (' ' :: r) := infoLog_to_chatLog l _ hinfo
  rw [hchat2] at hchat
  have hr := (List.cons.inj (Option.some.inj hchat)).2
  obtain ⟨a, ha, hma⟩ := altFirst_mem deathAtoms r n halt
  have hh := deathAtoms_start_user a ha
  cases a with
  | nil => simp at hh
  | cons a0 arest =>
    simp only [List.head?, Option.some.injEq] at hh
    subst hh
    obtain ⟨c, t, hct, hw⟩ := matchAtoms_user_head arest r n hma
    rw [hct] at hr
    cases hr
    exact absurd hw (by decide)

/-- C4: classification tries the rules in the fixed order DoneLoading,
StartingServer, StoppingServer, Overloaded, PlayerMovedWrongly, PlayerDied,
ChatMessage, PlayerJoined, PlayerLeft, and returns the first rule's event —
`parse_from` equals first-match evaluation of `ruleTable` — and in
particular every line satisfying both the PlayerDied rule and the
ChatMessage rule classifies as PlayerDied (no line satisfies both, by
`died_chat_exclusive`, so the priority between them can never be
observed in the other direction). -/
theorem priority_order_first_match (line : String) :
    parse_from line = firstMatch ruleTable ((strip_ansi_escapes line).data) ∧
    (∀ d, match_player_died ((strip_ansi_escapes line).data) = some d →
      (match_chat_message ((strip_ansi_escapes line).data)).isSome = true →
      parse_from line = some (.PlayerDied d)) := by
  refine ⟨parse_from_eq_firstMatch line, fun d hd hc => ?_⟩
  rw [Option.isSome_iff_exists] at hc
  obtain ⟨p, hp⟩ := hc
  exact (died_chat_exclusive _ d p hd hp).elim

/-! ## Username bounds -/

/-- A maximal run over an all-class list followed by an out-of-class
character. -/
theorem spanP_all_append (p : Char → Bool) (u : List Char) (d : Char) (t : List Char)
    (hu : ∀ c ∈ u, p c = true) (hd : p d = false) :
    spanP p (u ++ d :: t) = (u, d :: t) := by
  induction u with
  | nil => simp [spanP, hd]
  | cons a as ih =>
    have ha := hu a (List.mem_cons_self a as)
    have ih2 := ih fun c hc => hu c (List.mem_cons_of_mem a hc)
    simp [spanP, ha, ih2]

/-- The concrete `[09:58:23] [Server thread/INFO]:` head parses, leaving
the rest of the line. -/
theorem infoLog_head (rest : List Char) :
    infoLog (("[09:58:23] [Server thread/INFO]:" : String).data ++ rest) = some rest := rfl

/-- Word characters are printable, so the sanitizer passes them through. -/
theorem wordChar_clean (c : Char) (h : isWordChar c = true) : isCleanChar c = true := by
  unfold isWordChar at h
  simp only [Bool.or_eq_true, decide_eq_true_eq] at h
  simp only [isCleanChar, Bool.or_eq_true, Bool.and_eq_true, decide_eq_true_eq]
  rcases h with h | h
  · simp only [Char.isAlphanum, Char.isAlpha, Char.isUpper, Char.isLower, Char.isDigit,
      Bool.or_eq_true, Bool.and_eq_true, decide_eq_true_eq] at h
    right
    rcases h with (⟨h1, h2⟩ | ⟨h1, h2⟩) | ⟨h1, h2⟩
    · have h1n : 65 ≤ c.toNat := h1
      have h2n : c.toNat ≤ 90 := h2
      exact ⟨by omega, fun e => by rw [e] at h2n; exact absurd h2n (by decide)⟩
    · have h1n : 97 ≤ c.toNat := h1
      have h2n : c.toNat ≤ 122 := h2
      exact ⟨by omega, fun e => by rw [e] at h2n; exact absurd h2n (by decide)⟩
    · have h1n : 48 ≤ c.toNat := h1
      have h2n : c.toNat ≤ 57 := h2
      exact ⟨by omega, fun e => by rw [e] at h2n; exact absurd h2n (by decide)⟩
  · subst h
    decide

/-- The character decomposition of a PlayerJoined-shaped line. -/
theorem joinedLine_data (name : String) :
    (joinedLine name).data = ("[09:58:23] [Server thread/INFO]:" : String).data ++
      (' ' :: (name.data ++ (" joined the game" : String).data)) := by
  unfold joinedLine
  rw [String.data_append, String.data_append]
  rw [show ("[09:58:23] [Server thread/INFO]: " : String).data =
    ("[09:58:23] [Server thread/INFO]:" : String).data ++ [' '] from rfl]
  simp

/-- The PlayerJoined rule accepts a name token of 3 to 16 word characters
and captures it. -/
theorem joined_rule_in_bounds (name : String)
    (hw : ∀ c ∈ name.data, isWordChar c = true)
    (h3 : 3 ≤ name.data.length) (h16 : name.data.length ≤ 16) :
    match_player_joined ((joinedLine name).data) = some name := by
  rw [joinedLine_data]
  unfold match_player_joined
  rw [infoLog_head]
  show (match parseUser (name.data ++ (" joined the game" : String).data) with
    | some (u, r2) =>
      match litS " joined the game" r2 with
      | some _ => some (String.mk u)
      | none => none
    | none => none) = some name
  rw [show (" joined the game" : String).data =
    ' ' :: ("joined the game" : String).data from rfl]
  unfold parseUser
  rw [spanP_all_append isWordChar name.data ' ' _ hw (by decide)]
  simp only [h3, h16, and_self, if_true]
  rfl

/-- The PlayerJoined rule rejects name tokens of length 2 and 17. -/
theorem joined_rule_out_of_bounds (name : String)
    (hw : ∀ c ∈ name.data, isWordChar c = true)
    (hlen : name.data.length = 2 ∨ name.data.length = 17) :
    match_player_joined ((joinedLine name).data) = none := by
  rw [joinedLine_data]
  unfold match_player_joined
  rw [infoLog_head]
  show (match parseUser (name.data ++ (" joined the game" : String).data) with
    | some (u, r2) =>
      match litS " joined the game" r2 with
      | some _ => some (String.mk u)
      | none => none
    | none => none) = none
  rw [show (" joined the game" : String).data =
    ' ' :: ("joined the game" : String).data from rfl]
  unfold parseUser
  rw [spanP_all_append isWordChar name.data ' ' _ hw (by decide)]
  have hno : ¬(3 ≤ name.data.length ∧ name.data.length ≤ 16) := by
    rcases hlen with h | h <;> omega
  rw [if_neg hno]

/-- A PlayerJoined-shaped line with a word-character name is already clean,
so sanitization leaves it unchanged. -/
theorem joinedLine_clean (name : String)
    (hw : ∀ c ∈ name.data, isWordChar c = true) :
    strip_ansi_escapes (joinedLine name) = joinedLine name := by
  have hall : ∀ c ∈ (joinedLine name).data, isCleanChar c = true := by
    intro c hc
    rw [joinedLine_data] at hc
    rcases List.mem_append.mp hc with h | h
    · exact (by decide :
        ∀ x ∈ ("[09:58:23] [Server thread/INFO]:" : String).data,
          isCleanChar x = true) c h
    · rcases List.mem_cons.mp h with rfl | h2
      · decide
      · rcases List.mem_append.mp h2 with h3 | h3
        · exact wordChar_clean c (hw c h3)
        · exact (by decide :
            ∀ x ∈ (" joined the game" : String).data, isCleanChar x = true) c h3
  show String.mk (vtRun .ground (joinedLine name).data) = joinedLine name
  rw [vtRun_clean_id _ hall]

/-- A `PlayerJoined` classification can only come from the PlayerJoined
rule, with the same captured username. -/
theorem parse_from_playerJoined_inv (line : String) (u : String)
    (h : parse_from line = some (.PlayerJoined u)) :
    match_player_joined ((strip_ansi_escapes line).data) = some u := by
  simp only [parse_from] at h
  generalize (strip_ansi_escapes line).data = l at h ⊢
  cases h1 : match_done_loading l
  case some => rw [h1] at h; exact absurd h (by simp)
  case none =>
  rw [h1] at h
  cases h2 : match_starting_server l
  case some => rw [h2] at h; exact absurd h (by simp)
  case none =>
  rw [h2] at h
  cases h3 : match_stopping_server l
  case true => rw [h3] at h; exact absurd h (by simp)
  case false =>
  rw [h3] at h
  simp only [Bool.false_eq_true, if_false] at h
  cases h4 : match_overloaded l
  case some p => rw [h4] at h; obtain ⟨a, b⟩ := p; exact absurd h (by simp)
  case none =>
  rw [h4] at h
  cases h5 : capturesMovedW l
  case some p =>
    obtain ⟨g1, g2⟩ := p
    rw [h5] at h
    dsimp only at h
    cases h6 : g1.or g2
    case some => rw [h6] at h; exact absurd h (by simp)
    case none => rw [h6] at h; exact absurd h (by simp)
  case none =>
  rw [h5] at h
  cases h7 : match_player_died l
  case some => rw [h7] at h; exact absurd h (by simp)
  case none =>
  rw [h7] at h
  cases h8 : match_chat_message l
  case some p => rw [h8] at h; obtain ⟨a, b⟩ := p; exact absurd h (by simp)
  case none =>
  rw [h8] at h
  cases h9 : match_player_joined l
  case some u2 =>
    rw [h9] at h
    simp only [Option.some.injEq, ConsoleLine.PlayerJoined.injEq] at h
    rw [h]
  case none =>
  rw [h9] at h
  cases h10 : match_player_left l
  case some => rw [h10] at h; exact absurd h (by simp)
  case none => rw [h10] at h; exact absurd h (by simp)

/-- C8: the username pattern accepts exactly 3 to 16 word characters,
bounds inclusive: on a PlayerJoined-shaped line whose name token consists
of word characters, token length 3 or 16 makes the rule match and capture
the token, while token length 2 or 17 yields no `PlayerJoined` event from
classification at all. -/
theorem username_bounds (name : String)
    (hw : ∀ c ∈ name.data, isWordChar c = true) :
    ((name.length = 3 ∨ name.length = 16) →
      match_player_joined ((joinedLine name).data) = some name) ∧
    ((name.length = 2 ∨ name.length = 17) →
      ∀ u, parse_from (joinedLine name) ≠ some (.PlayerJoined u)) := by
  constructor
  · intro hlen
    have hb : 3 ≤ name.data.length ∧ name.data.length ≤ 16 := by
      have he : name.length = name.data.length := rfl
      rw [he] at hlen
      rcases hlen with h | h <;> omega
    exact joined_rule_in_bounds name hw hb.1 hb.2
  · intro hlen u hparse
    have hnone : match_player_joined ((joinedLine name).data) = none := by
      apply joined_rule_out_of_bounds name hw
      have he : name.length = name.data.length := rfl
      rw [he] at hlen
      exact hlen
    have hinv := parse_from_playerJoined_inv (joinedLine name) u hparse
    rw [joinedLine_clean name hw, hnone] at hinv
    exact Option.noConfusion hinv

/-- C8 (witness): length 3 matches (`"abc"`), length 2 yields no
PlayerJoined event (`"ab"`). -/
theorem username_bounds_witness :
    match_player_joined ((joinedLine "abc").data) = some "abc" ∧
    (∀ u, parse_from (joinedLine "ab") ≠ some (.PlayerJoined u)) :=
  ⟨(username_bounds "abc" (by decide)).1 (Or.inl rfl),
   (username_bounds "ab" (by decide)).2 (Or.inl rfl)⟩
